import Mathlib

/-!
Verification of the gold/silver price scraper (`src/price_scraper.py`,
class `PriceScraper`).

Shallow embedding conventions:
* Python strings are `List Char`; Python's code-point ordering, slicing and
  `in` tests are modelled on char lists directly.
* Python floats are modelled as exact rationals (`ℚ`): every numeric value
  the scraper handles is produced by parsing a decimal literal, which is an
  exact rational; no float rounding behaviour is relevant to the claims.
* Wall-clock data (`timestamp` fields) and the enclosing-table index, which
  the code stores as inert metadata on each price entry, are omitted from
  the `Entry` record; `value`, `original_text` and `row` are kept.
* File I/O becomes explicit state passing: the history files are passed in
  as values (`Option …` for a possibly absent file) and the rewritten store
  is returned.
-/

namespace PriceScraper

/-! ### Character and string primitives -/

/-- ASCII whitespace, as matched by the source's `str.strip` and the regex
class `\s` on the texts in scope (the source, via Python, would also accept
some further Unicode whitespace; none occurs in the data handled here). -/
def isPySpace (c : Char) : Bool :=
  c = ' ' || c = '\t' || c = '\n' || c = '\r' || c = '\x0B' || c = '\x0C'

/-- Lower-casing as used by `str.lower` on the texts in scope (ASCII letters;
the Bengali characters appearing in the source are fixed by `lower`). -/
def lowerL (s : List Char) : List Char := s.map Char.toLower

/-- Python `str.strip()`: drop leading and trailing whitespace. -/
def pyStrip (s : List Char) : List Char :=
  ((s.dropWhile isPySpace).reverse.dropWhile isPySpace).reverse

/-- One pass of Python `str.replace(pat, '')`: scan left to right, deleting
each non-overlapping occurrence of `pat`.  Fuel-indexed so that it is
structurally recursive; the wrapper supplies fuel `s.length`, which is
always sufficient since every step consumes at least one character. -/
def replaceAllAux (pat : List Char) : ℕ → List Char → List Char
  | _, [] => []
  | 0, s => s
  | fuel + 1, c :: rest =>
    if !pat.isEmpty && pat.isPrefixOf (c :: rest) then
      replaceAllAux pat fuel (List.drop pat.length (c :: rest))
    else
      c :: replaceAllAux pat fuel rest

/-- Python `s.replace(pat, '')`. -/
def replaceAll (pat s : List Char) : List Char := replaceAllAux pat s.length s

/-- Python substring test `pat in s`. -/
def sub (pat : List Char) : List Char → Bool
  | [] => pat.isEmpty
  | c :: rest => pat.isPrefixOf (c :: rest) || sub pat rest

/-- ASCII digit, the `\d` class on the texts in scope. -/
def isAsciiDigit (c : Char) : Bool := decide ('0' ≤ c) && decide (c ≤ '9')

/-- Character class `[\d,]` of the price regex. -/
def isDigitOrComma (c : Char) : Bool := isAsciiDigit c || c = ','

/-! ### Price Recognizer: `extract_price_value` (src/price_scraper.py:93-106) -/

/-- Line 96: `text.replace('৳','').replace('TK','').replace('BDT','')`,
applied in exactly that order. -/
def stripMarkers (t : List Char) : List Char :=
  replaceAll "BDT".data (replaceAll "TK".data (replaceAll "৳".data t))

/-- The (greedy) match of `[\d,]+\.?\d*` starting at the head of `s`,
assuming the head is in `[\d,]`. -/
def takeNumMatch (s : List Char) : List Char :=
  let p1 := s.takeWhile isDigitOrComma
  match s.dropWhile isDigitOrComma with
  | '.' :: r2 => p1 ++ '.' :: r2.takeWhile isAsciiDigit
  | _ => p1

/-- `re.search(r'[\d,]+\.?\d*', s)`: the leftmost match, which begins at the
first character in the class `[\d,]`. -/
def scanNum : List Char → Option (List Char)
  | [] => none
  | c :: rest => if isDigitOrComma c then some (takeNumMatch (c :: rest)) else scanNum rest

/-- Numeric value of a decimal literal `\d* ('.' \d*)?`: integer and
fractional digits over a power of ten.  This is the exact value Python's
`float` parses from such a string. -/
def digitsVal (l : List Char) : ℕ := l.foldl (fun a c => 10 * a + (c.toNat - 48)) 0

/-- Exact value of the decimal literal `s` (digits with at most one dot). -/
def ratOfNumString (s : List Char) : ℚ :=
  let ip := s.takeWhile (fun c => !(c = '.'))
  let fp := (s.dropWhile (fun c => !(c = '.'))).drop 1
  mkRat (digitsVal (ip ++ fp)) (10 ^ fp.length)

/-- Lines 101-105: `float(...)` on the comma-stripped match, `None` on
`ValueError`.  For a string of the shape `\d* ('.' \d*)?` the parse succeeds
exactly when at least one digit is present (`float('')` and `float('.')`
raise). -/
def pyFloatParse (s : List Char) : Option ℚ :=
  if s.any isAsciiDigit then some (ratOfNumString s) else none

/-- `extract_price_value` (lines 93-106): strip currency markers and outer
whitespace, find the first `[\d,]+\.?\d*` match, drop its commas and parse
it as a number. -/
def extract (t : List Char) : Option ℚ :=
  match scanNum (pyStrip (stripMarkers t)) with
  | none => none
  | some m => pyFloatParse (m.filter (fun c => !(c = ',')))

/-! ### Row Classifier: `categorize_price` (src/price_scraper.py:108-121) -/

/-- Purity category; source category keys in order of the source dict:
`'22_carat'`, `'21_carat'`, `'18_carat'`, `'traditional'`, `'all'`. -/
inductive Category where
  | c22 | c21 | c18 | traditional | all
deriving DecidableEq, Repr

/-- `categorize_price` (lines 108-121): priority-ordered substring tests on
the lower-cased row text (the Bengali keyword is tested on the raw text,
which `lower` would leave unchanged anyway). -/
def categorize (rowText : List Char) : Category :=
  let low := lowerL rowText
  if sub "22".data low || sub "22 carat".data low then .c22
  else if sub "21".data low || sub "21 carat".data low then .c21
  else if sub "18".data low || sub "18 carat".data low then .c18
  else if sub "traditional".data low || sub "ট্র্যাডিশনাল".data rowText then .traditional
  else .all

/-! ### `parse_prices` (src/price_scraper.py:123-196) -/

/-- Line 145: the row mentions gold. -/
def isGoldRow (rt : List Char) : Bool := sub "gold".data (lowerL rt) || sub "সোনা".data rt

/-- Line 172: the row mentions silver (two Bengali spellings). -/
def isSilverRow (rt : List Char) : Bool :=
  sub "silver".data (lowerL rt) || sub "রূপা".data rt || sub "রুপা".data rt

/-- Anchor `$` of `re.match`: end of string, or just before one final
newline. -/
def isEndAnchor : List Char → Bool
  | [] => true
  | [c] => c = '\n'
  | _ :: _ :: _ => false

/-- The alternation `(18|21|22)` at the start of the cell; returns the
remainder on success. -/
def afterCaratNum : List Char → Option (List Char)
  | '1' :: '8' :: rest => some rest
  | '2' :: '1' :: rest => some rest
  | '2' :: '2' :: rest => some rest
  | _ => none

/-- The group `\s+karat` followed by `$`.  The `\s+` block must be the
maximal whitespace run, since `k` is not whitespace. -/
def karatTail (s : List Char) : Bool :=
  (match s with | c :: _ => isPySpace c | [] => false) &&
  (match s.dropWhile isPySpace with
   | 'k' :: 'a' :: 'r' :: 'a' :: 't' :: rest => isEndAnchor rest
   | _ => false)

/-- Lines 151/178: `re.match(r'^(18|21|22)(\s+karat)?$', cell_text.lower())`
succeeds (the argument here is the already lower-cased cell). -/
def matchesCaratLabel (s : List Char) : Bool :=
  match afterCaratNum s with
  | none => false
  | some rest => isEndAnchor rest || karatTail rest

/-- A price entry (lines 159-165): the numeric value, the cell text it was
extracted from and the row's cell texts.  The `timestamp` (wall clock) and
`table` (enclosing-table index) metadata fields are omitted. -/
structure Entry where
  value : ℚ
  original_text : List Char
  row : List (List Char)
deriving DecidableEq, Repr

/-- Per-metal accumulator `self.prices[metal]` (lines 25-38). -/
structure MetalBucket where
  c22 : List Entry
  c21 : List Entry
  c18 : List Entry
  traditional : List Entry
  all : List Entry
deriving DecidableEq, Repr

def emptyBucket : MetalBucket := ⟨[], [], [], [], []⟩

/-- Lines 167-168 (resp. 194-195): append the entry to the detected
category's list, then to the `'all'` list.  When the detected category is
itself `'all'`, both appends hit the same list. -/
def addEntry (b : MetalBucket) (cat : Category) (e : Entry) : MetalBucket :=
  let b1 :=
    match cat with
    | .c22 => { b with c22 := b.c22 ++ [e] }
    | .c21 => { b with c21 := b.c21 ++ [e] }
    | .c18 => { b with c18 := b.c18 ++ [e] }
    | .traditional => { b with traditional := b.traditional ++ [e] }
    | .all => { b with all := b.all ++ [e] }
  { b1 with all := b1.all ++ [e] }

/-- Effect of one cell of a metal-matching row (lines 149-168 resp.
176-195): skip pure carat-label cells; extract a value; keep it only when
it is truthy and above the metal's threshold (`if price and price > 1000`).
Returns the entry appended for this cell, if any. -/
def cellEffect (threshold : ℚ) (rowData : List (List Char)) (cell : List Char) :
    Option Entry :=
  if matchesCaratLabel (lowerL cell) then none
  else
    match extract cell with
    | none => none
    | some v => if v ≠ 0 ∧ threshold < v then some ⟨v, cell, rowData⟩ else none

/-- The per-cell loop over an arbitrary cell list (the source iterates
`row_data` itself; kept general for induction). -/
def processCellsAux (threshold : ℚ) (rowText : List Char) (rowData : List (List Char))
    (cells : List (List Char)) (b : MetalBucket) : MetalBucket :=
  cells.foldl
    (fun b cell =>
      match cellEffect threshold rowData cell with
      | none => b
      | some e => addEntry b (categorize rowText) e) b

/-- The whole per-cell loop of one metal block for one row. -/
def processCells (threshold : ℚ) (rowText : List Char) (rowData : List (List Char))
    (b : MetalBucket) : MetalBucket :=
  processCellsAux threshold rowText rowData rowData b

/-- The run's accumulated prices (gold and silver buckets of
`self.prices`). -/
structure Prices where
  gold : MetalBucket
  silver : MetalBucket
deriving DecidableEq, Repr

def emptyPrices : Prices := ⟨emptyBucket, emptyBucket⟩

/-- Line 139: `row_text = ' '.join(row_data)`. -/
def rowTextOf (rowData : List (List Char)) : List Char := List.intercalate " ".data rowData

/-- Lines 136-196: processing of one table row.  Blank rows are skipped;
gold and silver are tested independently on the same row; gold uses
threshold 1000, silver 100. -/
def processRow (p : Prices) (rowData : List (List Char)) : Prices :=
  let rt := rowTextOf rowData
  if pyStrip rt = [] then p
  else
    let p1 := if isGoldRow rt then { p with gold := processCells 1000 rt rowData p.gold } else p
    if isSilverRow rt then { p1 with silver := processCells 100 rt rowData p1.silver } else p1

/-- `parse_prices` over the flattened sequence of table rows, starting from
the freshly initialised buckets (the enclosing-table index only feeds the
omitted `table` metadata field). -/
def processRows (rows : List (List (List Char))) : Prices :=
  rows.foldl processRow emptyPrices

/-! ### `get_averages` (src/price_scraper.py:267-286) -/

/-- Python `int()` on a (here exactly represented) number: truncation
toward zero. -/
def pyInt (q : ℚ) : ℤ := q.num.tdiv q.den

/-- A `DailyAverageRecord` (the `averages` dict of lines 269-275):
`date` plus the four per-category integer averages. -/
structure Avg where
  date : List Char
  k22 : ℤ
  k21 : ℤ
  k18 : ℤ
  traditional : ℤ
deriving DecidableEq, Repr

/-- Lines 282-285: `int(sum(values) / len(entries))` when the category has
entries, else the initial `0`. -/
def avgOf (entries : List Entry) : ℤ :=
  if entries = [] then 0
  else pyInt ((entries.map Entry.value).sum / (entries.length : ℚ))

/-- `get_averages` for one metal bucket on the run's date. -/
def getAverages (b : MetalBucket) (today : List Char) : Avg :=
  { date := today
    k22 := avgOf b.c22
    k21 := avgOf b.c21
    k18 := avgOf b.c18
    traditional := avgOf b.traditional }

/-! ### `save_history` (src/price_scraper.py:288-339)

The per-date record store of one metal.  Python's `list.sort` with key
`x['date']` is a stable sort by the date string (code-point order); a
stable sort is a function of the comparison, so it is embedded as the
stable insertion sort `sortByDate` below. -/

/-- Code-point ordering of Python strings (`≤`). -/
def strLe : List Char → List Char → Bool
  | [], _ => true
  | _ :: _, [] => false
  | a :: as, b :: bs => if a.toNat = b.toNat then strLe as bs else decide (a.toNat < b.toNat)

/-- Stable insertion of a record into a date-sorted list: the inserted
record goes before the records that compare equal to it, which is exactly
where a stable sort puts an element that preceded them in the input. -/
def orderedInsertAvg (r : Avg) : List Avg → List Avg
  | [] => [r]
  | x :: xs => if strLe r.date x.date then r :: x :: xs else x :: orderedInsertAvg r xs

/-- Lines 312 and 335: `rows.sort(key=lambda x: x['date'])` (stable,
ascending by date string). -/
def sortByDate : List Avg → List Avg
  | [] => []
  | r :: rs => orderedInsertAvg r (sortByDate rs)

/-- Lines 301-310 (CSV branch): find the first record whose date equals
today's and overwrite its four category fields in place; append the new
record at the end when no date matches. -/
def upsertCsvRows (rows : List Avg) (a : Avg) : List Avg :=
  match rows with
  | [] => [a]
  | r :: rest =>
    if r.date = a.date then
      { r with k22 := a.k22, k21 := a.k21, k18 := a.k18, traditional := a.traditional } :: rest
    else r :: upsertCsvRows rest a

/-- Lines 326-333 (JSON branch): find the first record whose date equals
today's and replace the whole record; append when no date matches. -/
def upsertJsonRows (rows : List Avg) (a : Avg) : List Avg :=
  match rows with
  | [] => [a]
  | r :: rest => if r.date = a.date then a :: rest else r :: upsertJsonRows rest a

/-- One invocation of the CSV-store update of `save_history` on a
well-formed prior store: upsert today's record, then re-sort. -/
def mergeCsv (rows : List Avg) (a : Avg) : List Avg := sortByDate (upsertCsvRows rows a)

/-- One invocation of the JSON-store update of `save_history` on a
well-formed prior store: upsert today's record, then re-sort. -/
def mergeJson (rows : List Avg) (a : Avg) : List Avg := sortByDate (upsertJsonRows rows a)

/-- No two records of the store share a date. -/
abbrev NodupDates (rows : List Avg) : Prop := (rows.map Avg.date).Nodup

/-! ### The history files as read from disk (for the load/error behaviour)

The CSV file is read through `csv.DictReader` (line 299), which yields one
string-keyed dict per data line — with whatever field names the file's
header line happens to declare; there is no try/except around this branch.
A dict row is embedded as an association list of (field, text) pairs.  The
code then writes each cell through `csv.DictWriter`, so integer fields are
persisted as their decimal text; the store values are modelled in that
written form. -/

/-- A `csv.DictReader` row. -/
abbrev Rrow := List (List Char × List Char)

/-- Python `row.get(k)`. -/
def rget (row : Rrow) (k : List Char) : Option (List Char) :=
  (row.find? (fun p => p.1 == k)).map (fun p => p.2)

/-- Python `row[k] = v` on a dict (update in place, else append). -/
def rset (row : Rrow) (k v : List Char) : Rrow :=
  match row with
  | [] => [(k, v)]
  | (k1, v1) :: rest => if k1 == k then (k, v) :: rest else (k1, v1) :: rset rest k v

/-- Decimal text of an integer, as `str` writes it into the CSV. -/
def intToStr (n : ℤ) : List Char := (toString n).data

/-- Today's averages as a dict row (insertion order of the `averages` dict:
date, k22, k21, k18, traditional). -/
def avgRowCsv (a : Avg) : Rrow :=
  [("date".data, a.date), ("k22".data, intToStr a.k22), ("k21".data, intToStr a.k21),
   ("k18".data, intToStr a.k18), ("traditional".data, intToStr a.traditional)]

/-- Lines 302-310 on raw dict rows: `row.get('date') == averages['date']`
(a row without a `date` field simply does not match), overwrite the four
category fields of the first match, append the averages row when none
matches. -/
def upsertRawRows (rows : List Rrow) (a : Avg) : List Rrow :=
  match rows with
  | [] => [avgRowCsv a]
  | r :: rest =>
    if rget r "date".data == some a.date then
      rset (rset (rset (rset r "k22".data (intToStr a.k22)) "k21".data (intToStr a.k21))
          "k18".data (intToStr a.k18)) "traditional".data (intToStr a.traditional) :: rest
    else r :: upsertRawRows rest a

/-- Stable insertion for raw rows, keyed by the `date` field (only applied
when every row has one). -/
def orderedInsertRaw (r : Rrow) : List Rrow → List Rrow
  | [] => [r]
  | x :: xs =>
    if strLe ((rget r "date".data).getD []) ((rget x "date".data).getD []) then r :: x :: xs
    else x :: orderedInsertRaw r xs

def sortRawByDate : List Rrow → List Rrow
  | [] => []
  | r :: rs => orderedInsertRaw r (sortRawByDate rs)

/-- The CSV half of `save_history` (lines 296-316) from the on-disk state:
`none` models an absent file (line 297 then leaves `rows = []`); a present
file contributes its `DictReader` rows unguarded.  Line 312's sort key
`x['date']` raises `KeyError` as soon as some row has no `date` field,
which aborts the merge: that is the `.error` case. -/
def saveHistoryCsvRaw (file : Option (List Rrow)) (a : Avg) : Except Unit (List Rrow) :=
  let rows := file.getD []
  let rows1 := upsertRawRows rows a
  if rows1.all (fun r => (rget r "date".data).isSome) then .ok (sortRawByDate rows1)
  else .error ()

/-- The JSON half of `save_history` (lines 318-337) from the on-disk state:
`none` models an absent file, `some none` a present file on which
`json.load` raises (the `except: pass` of line 324 then leaves
`json_rows = []`), `some (some rows)` a parsed record list. -/
def loadJsonRows : Option (Option (List Avg)) → List Avg
  | none => []
  | some none => []
  | some (some rows) => rows

def saveHistoryJsonRaw (file : Option (Option (List Avg))) (a : Avg) : List Avg :=
  mergeJson (loadJsonRows file) a

/-! ## Helper lemmas -/

theorem sub_of_sub_append {p q s : List Char} (h : sub (p ++ q) s = true) : sub p s = true := by
  induction s with
  | nil =>
    simp only [sub, List.isEmpty_iff, List.append_eq_nil] at h
    simp [sub, List.isEmpty_iff, h.1]
  | cons c rest ih =>
    simp only [sub, Bool.or_eq_true] at h ⊢
    rcases h with h | h
    · left
      rw [ List.isPrefixOf_iff_prefix] at h ⊢
      exact List.IsPrefix.trans ⟨q, rfl⟩ h
    · exact Or.inr (ih h)

theorem sub_append_false {p q s : List Char} (h : sub p s = false) : sub (p ++ q) s = false := by
  cases hpq : sub (p ++ q) s
  · rfl
  · rw [sub_of_sub_append hpq] at h
    exact absurd h (by simp)

/-- The detected category is `c22` as soon as the lower-cased row text
contains `22` anywhere, regardless of the rest of the row. -/
theorem categorize_of_sub22 (rt : List Char) (h : sub "22".data (lowerL rt) = true) :
    categorize rt = .c22 := by
  simp [categorize, h]

theorem categorize_of_sub21 (rt : List Char) (h22 : sub "22".data (lowerL rt) = false)
    (h21 : sub "21".data (lowerL rt) = true) : categorize rt = .c21 := by
  have h22c : sub "22 carat".data (lowerL rt) = false := by
    have e : ("22 carat".data : List Char) = "22".data ++ " carat".data := rfl
    rw [e]
    exact sub_append_false h22
  simp [categorize, h22, h22c, h21]

theorem categorize_of_sub18 (rt : List Char) (h22 : sub "22".data (lowerL rt) = false)
    (h21 : sub "21".data (lowerL rt) = false) (h18 : sub "18".data (lowerL rt) = true) :
    categorize rt = .c18 := by
  have h22c : sub "22 carat".data (lowerL rt) = false := by
    have e : ("22 carat".data : List Char) = "22".data ++ " carat".data := rfl
    rw [e]; exact sub_append_false h22
  have h21c : sub "21 carat".data (lowerL rt) = false := by
    have e : ("21 carat".data : List Char) = "21".data ++ " carat".data := rfl
    rw [e]; exact sub_append_false h21
  simp [categorize, h22, h22c, h21, h21c, h18]

theorem categorize_of_trad (rt : List Char) (h22 : sub "22".data (lowerL rt) = false)
    (h21 : sub "21".data (lowerL rt) = false) (h18 : sub "18".data (lowerL rt) = false)
    (ht : sub "traditional".data (lowerL rt) = true ∨ sub "ট্র্যাডিশনাল".data rt = true) :
    categorize rt = .traditional := by
  have h22c : sub "22 carat".data (lowerL rt) = false := by
    have e : ("22 carat".data : List Char) = "22".data ++ " carat".data := rfl
    rw [e]; exact sub_append_false h22
  have h21c : sub "21 carat".data (lowerL rt) = false := by
    have e : ("21 carat".data : List Char) = "21".data ++ " carat".data := rfl
    rw [e]; exact sub_append_false h21
  have h18c : sub "18 carat".data (lowerL rt) = false := by
    have e : ("18 carat".data : List Char) = "18".data ++ " carat".data := rfl
    rw [e]; exact sub_append_false h18
  rcases ht with ht | ht <;>
    simp [categorize, h22, h22c, h21, h21c, h18, h18c, ht]

theorem categorize_of_none (rt : List Char) (h22 : sub "22".data (lowerL rt) = false)
    (h21 : sub "21".data (lowerL rt) = false) (h18 : sub "18".data (lowerL rt) = false)
    (ht : sub "traditional".data (lowerL rt) = false)
    (hb : sub "ট্র্যাডিশনাল".data rt = false) : categorize rt = .all := by
  have h22c : sub "22 carat".data (lowerL rt) = false := by
    have e : ("22 carat".data : List Char) = "22".data ++ " carat".data := rfl
    rw [e]; exact sub_append_false h22
  have h21c : sub "21 carat".data (lowerL rt) = false := by
    have e : ("21 carat".data : List Char) = "21".data ++ " carat".data := rfl
    rw [e]; exact sub_append_false h21
  have h18c : sub "18 carat".data (lowerL rt) = false := by
    have e : ("18 carat".data : List Char) = "18".data ++ " carat".data := rfl
    rw [e]; exact sub_append_false h18
  simp [categorize, h22, h22c, h21, h21c, h18, h18c, ht, hb]

/-- All entries held anywhere in a metal's bucket (the four category lists
and the aggregate `all` list). -/
def allEntriesOf (b : MetalBucket) : List Entry :=
  b.c22 ++ b.c21 ++ b.c18 ++ b.traditional ++ b.all

theorem mem_addEntry {e e1 : Entry} {b : MetalBucket} {cat : Category}
    (h : e ∈ allEntriesOf (addEntry b cat e1)) : e ∈ allEntriesOf b ∨ e = e1 := by
  cases cat <;> simp [addEntry, allEntriesOf, List.mem_append] at h ⊢ <;> tauto

theorem cellEffect_some {threshold : ℚ} {rowData : List (List Char)} {cell : List Char}
    {e : Entry} (h : cellEffect threshold rowData cell = some e) :
    matchesCaratLabel (lowerL cell) = false ∧ extract cell = some e.value ∧
      e.value ≠ 0 ∧ threshold < e.value ∧ e.original_text = cell ∧ e.row = rowData := by
  rw [cellEffect] at h
  split at h
  · exact absurd h (by simp)
  · rename_i hm0
    split at h
    · exact absurd h (by simp)
    · rename_i v hx
      split at h
      · rename_i hc
        cases h
        exact ⟨by simpa using hm0, hx, hc.1, hc.2, rfl, rfl⟩
      · exact absurd h (by simp)

theorem mem_processCellsAux {threshold : ℚ} {rowText : List Char}
    {rowData cells : List (List Char)} {b : MetalBucket} {e : Entry}
    (h : e ∈ allEntriesOf (processCellsAux threshold rowText rowData cells b)) :
    e ∈ allEntriesOf b ∨ ∃ cell ∈ cells, cellEffect threshold rowData cell = some e := by
  induction cells generalizing b with
  | nil => exact Or.inl h
  | cons c cs ih =>
    rw [processCellsAux, List.foldl_cons] at h
    cases hc : cellEffect threshold rowData c with
    | none =>
      rw [hc] at h
      rcases ih h with h | ⟨cell, hmem, hcell⟩
      · exact Or.inl h
      · exact Or.inr ⟨cell, List.mem_cons_of_mem _ hmem, hcell⟩
    | some e1 =>
      rw [hc] at h
      rcases ih h with h | ⟨cell, hmem, hcell⟩
      · rcases mem_addEntry h with h | rfl
        · exact Or.inl h
        · exact Or.inr ⟨c, List.mem_cons_self _ _, hc⟩
      · exact Or.inr ⟨cell, List.mem_cons_of_mem _ hmem, hcell⟩

theorem mem_processCells {threshold : ℚ} {rowText : List Char} {rowData : List (List Char)}
    {b : MetalBucket} {e : Entry}
    (h : e ∈ allEntriesOf (processCells threshold rowText rowData b)) :
    e ∈ allEntriesOf b ∨ ∃ cell ∈ rowData, cellEffect threshold rowData cell = some e :=
  mem_processCellsAux h

theorem mem_processRow_gold {p : Prices} {rowData : List (List Char)} {e : Entry}
    (h : e ∈ allEntriesOf (processRow p rowData).gold) :
    e ∈ allEntriesOf p.gold ∨
      ∃ cell ∈ rowData, cellEffect 1000 rowData cell = some e := by
  rw [processRow] at h
  by_cases hb : pyStrip (rowTextOf rowData) = []
  · rw [if_pos hb] at h
    exact Or.inl h
  · rw [if_neg hb] at h
    by_cases hs : isSilverRow (rowTextOf rowData) = true
    · rw [if_pos hs] at h
      simp only at h
      by_cases hg : isGoldRow (rowTextOf rowData) = true
      · rw [if_pos hg] at h
        exact mem_processCells h
      · rw [if_neg hg] at h
        exact Or.inl h
    · rw [if_neg hs] at h
      by_cases hg : isGoldRow (rowTextOf rowData) = true
      · rw [if_pos hg] at h
        exact mem_processCells h
      · rw [if_neg hg] at h
        exact Or.inl h

theorem mem_processRow_silver {p : Prices} {rowData : List (List Char)} {e : Entry}
    (h : e ∈ allEntriesOf (processRow p rowData).silver) :
    e ∈ allEntriesOf p.silver ∨
      ∃ cell ∈ rowData, cellEffect 100 rowData cell = some e := by
  rw [processRow] at h
  by_cases hb : pyStrip (rowTextOf rowData) = []
  · rw [if_pos hb] at h
    exact Or.inl h
  · rw [if_neg hb] at h
    by_cases hg : isGoldRow (rowTextOf rowData) = true
    · rw [if_pos hg] at h
      by_cases hs : isSilverRow (rowTextOf rowData) = true
      · rw [if_pos hs] at h
        exact mem_processCells h
      · rw [if_neg hs] at h
        exact Or.inl h
    · rw [if_neg hg] at h
      by_cases hs : isSilverRow (rowTextOf rowData) = true
      · rw [if_pos hs] at h
        exact mem_processCells h
      · rw [if_neg hs] at h
        exact Or.inl h

/-- Invariant carried through the whole run: every entry in either metal's
bucket lists passed the metal's threshold and did not come from a pure
carat-label cell. -/
theorem processRows_inv (rows : List (List (List Char))) (p : Prices)
    (hg : ∀ e ∈ allEntriesOf p.gold,
      1000 < e.value ∧ matchesCaratLabel (lowerL e.original_text) = false)
    (hs : ∀ e ∈ allEntriesOf p.silver,
      100 < e.value ∧ matchesCaratLabel (lowerL e.original_text) = false) :
    (∀ e ∈ allEntriesOf (rows.foldl processRow p).gold,
      1000 < e.value ∧ matchesCaratLabel (lowerL e.original_text) = false) ∧
    (∀ e ∈ allEntriesOf (rows.foldl processRow p).silver,
      100 < e.value ∧ matchesCaratLabel (lowerL e.original_text) = false) := by
  induction rows generalizing p with
  | nil => exact ⟨hg, hs⟩
  | cons r rs ih =>
    rw [List.foldl_cons]
    refine ih (processRow p r) ?_ ?_
    · intro e he
      rcases mem_processRow_gold he with he | ⟨cell, _, hcell⟩
      · exact hg e he
      · obtain ⟨hlabel, _, _, hth, horig, _⟩ := cellEffect_some hcell
        exact ⟨hth, horig ▸ hlabel⟩
    · intro e he
      rcases mem_processRow_silver he with he | ⟨cell, _, hcell⟩
      · exact hs e he
      · obtain ⟨hlabel, _, _, hth, horig, _⟩ := cellEffect_some hcell
        exact ⟨hth, horig ▸ hlabel⟩

/-! ### Order and sorting lemmas for the history store -/

/-- The store is non-decreasing by date string. -/
def DateSorted (rows : List Avg) : Prop :=
  rows.Pairwise (fun x y => strLe x.date y.date = true)

theorem strLe_refl (s : List Char) : strLe s s = true := by
  induction s with
  | nil => rfl
  | cons c cs ih => simp [strLe, ih]

theorem strLe_total (a b : List Char) : strLe a b = true ∨ strLe b a = true := by
  induction a generalizing b with
  | nil => exact Or.inl rfl
  | cons c cs ih =>
    cases b with
    | nil => exact Or.inr rfl
    | cons d ds =>
      by_cases h : c.toNat = d.toNat
      · rw [strLe, if_pos h, strLe, if_pos h.symm]
        exact ih ds
      · rw [strLe, if_neg h, strLe, if_neg (fun hh => h hh.symm)]
        simp only [decide_eq_true_eq]
        omega

theorem strLe_trans {a b c : List Char} (h1 : strLe a b = true) (h2 : strLe b c = true) :
    strLe a c = true := by
  induction a generalizing b c with
  | nil => rfl
  | cons x xs ih =>
    cases b with
    | nil => simp [strLe] at h1
    | cons y ys =>
      cases c with
      | nil => simp [strLe] at h2
      | cons z zs =>
        rw [strLe] at h1 h2 ⊢
        split_ifs at h1 h2 ⊢ with hxy hyz hyz <;>
          (try simp only [decide_eq_true_eq] at h1 h2 ⊢) <;>
          first
            | exact ih h1 h2
            | omega

theorem mem_orderedInsertAvg {x r : Avg} {M : List Avg} :
    x ∈ orderedInsertAvg r M ↔ x = r ∨ x ∈ M := by
  induction M with
  | nil => simp [orderedInsertAvg]
  | cons y ys ih =>
    rw [orderedInsertAvg]
    by_cases h : strLe r.date y.date = true
    · rw [if_pos h]
      simp
    · rw [if_neg h]
      simp only [List.mem_cons, ih]
      tauto

theorem orderedInsertAvg_sorted {r : Avg} {M : List Avg} (h : DateSorted M) :
    DateSorted (orderedInsertAvg r M) := by
  induction M with
  | nil => simp [orderedInsertAvg, DateSorted]
  | cons y ys ih =>
    rw [orderedInsertAvg]
    have hy := (List.pairwise_cons.mp h).1
    have hys := (List.pairwise_cons.mp h).2
    by_cases hle : strLe r.date y.date = true
    · rw [if_pos hle]
      refine List.Pairwise.cons ?_ h
      intro z hz
      rcases List.mem_cons.mp hz with rfl | hz
      · exact hle
      · exact strLe_trans hle (hy z hz)
    · rw [if_neg hle]
      refine List.Pairwise.cons ?_ (ih hys)
      intro z hz
      rcases mem_orderedInsertAvg.mp hz with hq | hz
      · rw [hq]
        rcases strLe_total r.date y.date with h1 | h1
        · exact absurd h1 hle
        · exact h1
      · exact hy z hz

theorem sortByDate_sorted (L : List Avg) : DateSorted (sortByDate L) := by
  induction L with
  | nil => simp [sortByDate, DateSorted]
  | cons r rs ih => exact orderedInsertAvg_sorted ih

theorem sortByDate_of_sorted {L : List Avg} (h : DateSorted L) : sortByDate L = L := by
  induction L with
  | nil => rfl
  | cons r rs ih =>
    rw [sortByDate, ih (List.pairwise_cons.mp h).2]
    cases rs with
    | nil => rfl
    | cons y ys =>
      rw [orderedInsertAvg,
        if_pos ((List.pairwise_cons.mp h).1 y (List.mem_cons_self _ _))]

theorem orderedInsertAvg_perm (r : Avg) (M : List Avg) :
    (orderedInsertAvg r M).Perm (r :: M) := by
  induction M with
  | nil => exact List.Perm.refl _
  | cons y ys ih =>
    rw [orderedInsertAvg]
    by_cases h : strLe r.date y.date = true
    · rw [if_pos h]
    · rw [if_neg h]
      exact (ih.cons y).trans (List.Perm.swap r y ys)

theorem sortByDate_perm (L : List Avg) : (sortByDate L).Perm L := by
  induction L with
  | nil => exact List.Perm.refl _
  | cons r rs ih => exact (orderedInsertAvg_perm r _).trans (ih.cons r)

/-! ### Upsert lemmas -/

/-- The first record of the store carrying the given date. -/
def findByDate (d : List Char) (rows : List Avg) : Option Avg :=
  rows.find? (fun x => x.date == d)

theorem findByDate_upsertCsv (L : List Avg) (a : Avg) :
    findByDate a.date (upsertCsvRows L a) = some a := by
  induction L with
  | nil => simp [upsertCsvRows, findByDate, List.find?]
  | cons r rest ih =>
    rw [upsertCsvRows]
    by_cases h : r.date = a.date
    · rw [if_pos h, findByDate, List.find?_cons_of_pos _ (by simpa using h)]
      rcases r with ⟨rd, r1, r2, r3, r4⟩
      rcases a with ⟨ad, a1, a2, a3, a4⟩
      simp only at h
      simp [h]
    · rw [if_neg h, findByDate, List.find?_cons_of_neg _ (by simpa using h)]
      exact ih

theorem upsertCsv_of_found {L : List Avg} {a : Avg} (h : findByDate a.date L = some a) :
    upsertCsvRows L a = L := by
  induction L with
  | nil => simp [findByDate, List.find?] at h
  | cons r rest ih =>
    by_cases hd : r.date = a.date
    · rw [findByDate, List.find?_cons_of_pos _ (by simpa using hd)] at h
      cases h
      rw [upsertCsvRows, if_pos hd]
    · rw [findByDate, List.find?_cons_of_neg _ (by simpa using hd)] at h
      rw [upsertCsvRows, if_neg hd, ih h]

theorem findByDate_orderedInsert_self {r : Avg} {M : List Avg} :
    findByDate r.date (orderedInsertAvg r M) = some r := by
  induction M with
  | nil => simp [orderedInsertAvg, findByDate, List.find?]
  | cons y ys ih =>
    rw [orderedInsertAvg]
    by_cases hle : strLe r.date y.date = true
    · rw [if_pos hle, findByDate, List.find?_cons_of_pos _ (by simp)]
    · rw [if_neg hle]
      have hne : y.date ≠ r.date := by
        intro hh
        exact hle (hh ▸ strLe_refl r.date)
      rw [findByDate, List.find?_cons_of_neg _ (by simpa using hne)]
      exact ih

theorem findByDate_orderedInsert_other {d : List Char} {r : Avg} {M : List Avg}
    (h : r.date ≠ d) : findByDate d (orderedInsertAvg r M) = findByDate d M := by
  induction M with
  | nil =>
    rw [orderedInsertAvg, findByDate, List.find?_cons_of_neg _ (by simpa using h)]
    rfl
  | cons y ys ih =>
    rw [orderedInsertAvg]
    by_cases hle : strLe r.date y.date = true
    · rw [if_pos hle, findByDate, List.find?_cons_of_neg _ (by simpa using h)]
      rfl
    · rw [if_neg hle]
      by_cases hy : y.date = d
      · rw [findByDate, List.find?_cons_of_pos _ (by simpa using hy), findByDate,
          List.find?_cons_of_pos _ (by simpa using hy)]
      · rw [findByDate, List.find?_cons_of_neg _ (by simpa using hy), findByDate,
          List.find?_cons_of_neg _ (by simpa using hy)]
        exact ih

theorem findByDate_sortByDate (d : List Char) (L : List Avg) :
    findByDate d (sortByDate L) = findByDate d L := by
  induction L with
  | nil => rfl
  | cons r rs ih =>
    rw [sortByDate]
    by_cases h : r.date = d
    · subst h
      rw [findByDate_orderedInsert_self, findByDate, List.find?_cons_of_pos _ (by simp)]
    · rw [findByDate_orderedInsert_other h, ih]
      exact (List.find?_cons_of_neg _ (by simpa using h)).symm

theorem upsertRows_eq (M : List Avg) (b : Avg) : upsertCsvRows M b = upsertJsonRows M b := by
  induction M with
  | nil => rfl
  | cons r rest ih =>
    rw [upsertCsvRows, upsertJsonRows]
    by_cases h : r.date = b.date
    · rw [if_pos h, if_pos h]
      rcases r with ⟨rd, r1, r2, r3, r4⟩
      rcases b with ⟨bd, b1, b2, b3, b4⟩
      simp only at h
      simp [h]
    · rw [if_neg h, if_neg h, ih]

theorem mergeJson_eq (M : List Avg) (b : Avg) : mergeJson M b = mergeCsv M b := by
  rw [mergeJson, mergeCsv, upsertRows_eq]

/-! ### Date-uniqueness lemmas -/

theorem mem_map_date_upsertCsv {d : List Char} {L : List Avg} {a : Avg}
    (h : d ∈ (upsertCsvRows L a).map Avg.date) : d ∈ L.map Avg.date ∨ d = a.date := by
  induction L with
  | nil => simpa [upsertCsvRows] using h
  | cons r rest ih =>
    rw [upsertCsvRows] at h
    by_cases hd : r.date = a.date
    · rw [if_pos hd] at h
      simp only [List.map_cons, List.mem_cons] at h ⊢
      tauto
    · rw [if_neg hd] at h
      simp only [List.map_cons, List.mem_cons] at h ⊢
      rcases h with h | h
      · exact Or.inl (Or.inl h)
      · rcases ih h with h | h
        · exact Or.inl (Or.inr h)
        · exact Or.inr h

theorem nodup_upsertCsv {L : List Avg} {a : Avg} (h : NodupDates L) :
    NodupDates (upsertCsvRows L a) := by
  induction L with
  | nil => simp [upsertCsvRows, NodupDates]
  | cons r rest ih =>
    rw [NodupDates, List.map_cons, List.nodup_cons] at h
    rw [upsertCsvRows]
    by_cases hd : r.date = a.date
    · rw [if_pos hd]
      rw [NodupDates, List.map_cons, List.nodup_cons]
      exact ⟨h.1, h.2⟩
    · rw [if_neg hd]
      rw [NodupDates, List.map_cons, List.nodup_cons]
      refine ⟨?_, ih h.2⟩
      intro hc
      rcases mem_map_date_upsertCsv hc with hc | hc
      · exact h.1 hc
      · exact hd hc

theorem nodup_sortByDate {L : List Avg} (h : NodupDates L) : NodupDates (sortByDate L) :=
  (((sortByDate_perm L).map Avg.date).nodup_iff).mpr h

/-! ## Claims -/

/-- C1: running the history merge twice on the same calendar day with the
same snapshot data (hence the same averages record) yields a store
identical to running it once, for both the CSV and the JSON history
stores: the upsert overwrites the existing record of today's date instead
of appending a second one, and the persisted fields are the second
computation's output.  No assumption on the prior store is needed: the
first merge leaves today's first record equal to `a`, the stable sort
keeps it the first of its date, and the second upsert rewrites it with
identical values. -/
theorem claim_C1 (L : List Avg) (a : Avg) :
    mergeCsv (mergeCsv L a) a = mergeCsv L a ∧
    mergeJson (mergeJson L a) a = mergeJson L a := by
  have key : ∀ (M : List Avg) (b : Avg), mergeCsv (mergeCsv M b) b = mergeCsv M b := by
    intro M b
    have h1 : findByDate b.date (mergeCsv M b) = some b := by
      rw [mergeCsv, findByDate_sortByDate, findByDate_upsertCsv]
    have h2 : upsertCsvRows (mergeCsv M b) b = mergeCsv M b := upsertCsv_of_found h1
    have h3 : DateSorted (mergeCsv M b) := sortByDate_sorted _
    calc mergeCsv (mergeCsv M b) b
        = sortByDate (upsertCsvRows (mergeCsv M b) b) := rfl
      _ = sortByDate (mergeCsv M b) := by rw [h2]
      _ = mergeCsv M b := sortByDate_of_sorted h3
  refine ⟨key L a, ?_⟩
  rw [mergeJson_eq, mergeJson_eq]
  exact key L a

/-- C2: after any merge the store is non-decreasing by date string, and
the merge preserves date-uniqueness: a store with at most one record per
date still has at most one record per date after the merge — for both the
CSV and the JSON stores. -/
theorem claim_C2 (L : List Avg) (a : Avg) :
    DateSorted (mergeCsv L a) ∧ DateSorted (mergeJson L a) ∧
    (NodupDates L → NodupDates (mergeCsv L a) ∧ NodupDates (mergeJson L a)) := by
  refine ⟨sortByDate_sorted _, sortByDate_sorted _, fun h => ⟨?_, ?_⟩⟩
  · exact nodup_sortByDate (nodup_upsertCsv h)
  · rw [mergeJson_eq]
    exact nodup_sortByDate (nodup_upsertCsv h)

/-- C2 witness: merging today's record into a two-day store with distinct
dates keeps the dates distinct in both stores. -/
theorem claim_C2_witness :
    NodupDates [(⟨"2024-01-03".data, 5, 5, 5, 5⟩ : Avg), ⟨"2024-01-02".data, 1, 1, 1, 1⟩] ∧
    NodupDates
      (mergeCsv [(⟨"2024-01-03".data, 5, 5, 5, 5⟩ : Avg), ⟨"2024-01-02".data, 1, 1, 1, 1⟩]
        ⟨"2024-01-04".data, 9, 9, 9, 9⟩) ∧
    NodupDates
      (mergeJson [(⟨"2024-01-03".data, 5, 5, 5, 5⟩ : Avg), ⟨"2024-01-02".data, 1, 1, 1, 1⟩]
        ⟨"2024-01-04".data, 9, 9, 9, 9⟩) :=
  ⟨by decide,
    ((claim_C2 [⟨"2024-01-03".data, 5, 5, 5, 5⟩, ⟨"2024-01-02".data, 1, 1, 1, 1⟩]
        ⟨"2024-01-04".data, 9, 9, 9, 9⟩).2.2 (by decide)).1,
    ((claim_C2 [⟨"2024-01-03".data, 5, 5, 5, 5⟩, ⟨"2024-01-02".data, 1, 1, 1, 1⟩]
        ⟨"2024-01-04".data, 9, 9, 9, 9⟩).2.2 (by decide)).2⟩

/-- C7 (amended): an absent history file is loaded as an empty record
sequence and the merge completes, for both the CSV and the JSON stores; a
present JSON file on which `json.load` fails is likewise treated as empty
and the merge completes.  The CSV path, however, has no corruption guard:
its only handled condition is absence (see the counterexample). -/
theorem claim_C7 (a : Avg) :
    saveHistoryCsvRaw none a = .ok [avgRowCsv a] ∧
    saveHistoryJsonRaw none a = mergeJson [] a ∧
    saveHistoryJsonRaw (some none) a = mergeJson [] a ∧
    saveHistoryJsonRaw (some none) a = [a] :=
  ⟨rfl, rfl, rfl, rfl⟩

/-- C7 counterexample: a present-but-corrupted CSV store (header `foo`,
one data row, hence a `DictReader` row without a `date` field) is not
treated as empty: the merge aborts with the sort key's `KeyError` instead
of completing, unlike the absent-file case. -/
theorem claim_C7_counterexample :
    saveHistoryCsvRaw (some [[("foo".data, "bar".data)]])
        ⟨"2024-01-01".data, 0, 0, 0, 0⟩ = .error () ∧
    saveHistoryCsvRaw none ⟨"2024-01-01".data, 0, 0, 0, 0⟩ =
      .ok [avgRowCsv ⟨"2024-01-01".data, 0, 0, 0, 0⟩] ∧
    saveHistoryCsvRaw (some [[("foo".data, "bar".data)]]) ⟨"2024-01-01".data, 0, 0, 0, 0⟩ ≠
      saveHistoryCsvRaw none ⟨"2024-01-01".data, 0, 0, 0, 0⟩ :=
  ⟨rfl, rfl, fun h => Except.noConfusion h⟩

/-- C3: category detection over the lower-cased row text is evaluated in
fixed priority order with first match winning: a text containing `22` is
`c22`; else one containing `21` is `c21`; else one containing `18` is
`c18`; else one containing `traditional` (or its Bengali form, tested on
the raw text) is `traditional`; else the row is unclassified (`all`).  In
particular a row mentioning several carat numbers gets only the
highest-priority match. -/
theorem claim_C3 (rt : List Char) :
    (sub "22".data (lowerL rt) = true → categorize rt = .c22) ∧
    (sub "22".data (lowerL rt) = false → sub "21".data (lowerL rt) = true →
      categorize rt = .c21) ∧
    (sub "22".data (lowerL rt) = false → sub "21".data (lowerL rt) = false →
      sub "18".data (lowerL rt) = true → categorize rt = .c18) ∧
    (sub "22".data (lowerL rt) = false → sub "21".data (lowerL rt) = false →
      sub "18".data (lowerL rt) = false →
      (sub "traditional".data (lowerL rt) = true ∨ sub "ট্র্যাডিশনাল".data rt = true) →
      categorize rt = .traditional) ∧
    (sub "22".data (lowerL rt) = false → sub "21".data (lowerL rt) = false →
      sub "18".data (lowerL rt) = false → sub "traditional".data (lowerL rt) = false →
      sub "ট্র্যাডিশনাল".data rt = false → categorize rt = .all) :=
  ⟨categorize_of_sub22 rt, categorize_of_sub21 rt, categorize_of_sub18 rt,
    categorize_of_trad rt, categorize_of_none rt⟩

/-- C3 witness: a row text mentioning `22`, `21` and `traditional` at once
is classified `c22`, the highest-priority match. -/
theorem claim_C3_witness :
    sub "22".data (lowerL "Gold 22 & 21 Carat traditional".data) = true ∧
    categorize "Gold 22 & 21 Carat traditional".data = .c22 :=
  ⟨by decide, (claim_C3 "Gold 22 & 21 Carat traditional".data).1 (by decide)⟩

/-- C10: category detection is raw substring containment with no
word-boundary check: any row whose lower-cased text contains the digit
pair `22` anywhere — also inside a price such as `1,22,456` — is
classified `c22`, even when the row also says `traditional`. -/
theorem claim_C10 :
    (∀ rt : List Char, sub "22".data (lowerL rt) = true → categorize rt = .c22) ∧
    sub "22".data
      (lowerL (rowTextOf ["Gold".data, "Traditional".data, "৳ 1,22,456".data])) = true ∧
    sub "traditional".data
      (lowerL (rowTextOf ["Gold".data, "Traditional".data, "৳ 1,22,456".data])) = true ∧
    categorize (rowTextOf ["Gold".data, "Traditional".data, "৳ 1,22,456".data]) = .c22 :=
  ⟨categorize_of_sub22, by decide, by decide,
    categorize_of_sub22 _ (by decide)⟩

/-- C10 witness: the general statement applied to the concrete row
`["Gold", "Traditional", "৳ 1,22,456"]`, whose only `22` sits inside the
price digits. -/
theorem claim_C10_witness :
    categorize (rowTextOf ["Gold".data, "Traditional".data, "৳ 1,22,456".data]) = .c22 :=
  claim_C10.1 _ (by decide)

/-- C9: an accepted entry is appended once to the detected category's list
and once to the metal's `all` list; when the detected category is itself
`all` (no purity keyword matched) both appends hit the `all` list, so the
entry lands there with multiplicity 2, while an entry of a named category
lands in `all` exactly once. -/
theorem claim_C9 (b : MetalBucket) (cat : Category) (e : Entry) :
    List.count e (addEntry b cat e).all =
      List.count e b.all + (if cat = Category.all then 2 else 1) ∧
    (cat ≠ Category.all → (addEntry b cat e).all = b.all ++ [e]) ∧
    (addEntry emptyBucket Category.all e).all = [e, e] ∧
    (addEntry emptyBucket Category.c22 e).all = [e] := by
  refine ⟨?_, ?_, by simp [addEntry, emptyBucket], by simp [addEntry, emptyBucket]⟩
  · cases cat <;> simp [addEntry, List.count_append]
  · intro h
    cases cat <;> simp [addEntry] at h ⊢

/-- C4: a cell whose whole content (lower-cased) is `18`, `21` or `22`,
optionally followed by whitespace and `karat`, never produces a price
entry — the per-cell step skips it — and consequently no entry anywhere in
the run's gold or silver buckets originates from such a cell, even though
such content does parse as a number. -/
theorem claim_C4 :
    (∀ (threshold : ℚ) (rowData : List (List Char)) (cell : List Char),
      matchesCaratLabel (lowerL cell) = true → cellEffect threshold rowData cell = none) ∧
    (∀ (rows : List (List (List Char))) (e : Entry),
      e ∈ allEntriesOf (processRows rows).gold ∨ e ∈ allEntriesOf (processRows rows).silver →
      matchesCaratLabel (lowerL e.original_text) = false) ∧
    extract "18".data = some 18 ∧ extract "21".data = some 21 ∧ extract "22".data = some 22 := by
  refine ⟨?_, ?_, by decide, by decide, by decide⟩
  · intro threshold rowData cell h
    simp [cellEffect, h]
  · intro rows e he
    have hinv := processRows_inv rows emptyPrices (by simp [emptyPrices, emptyBucket, allEntriesOf])
      (by simp [emptyPrices, emptyBucket, allEntriesOf])
    rcases he with he | he
    · exact (hinv.1 e he).2
    · exact (hinv.2 e he).2

/-- C4 witness: the cell `22 Karat` is a pure carat label (after
lower-casing) and the per-cell step produces no entry for it, although its
text parses as the number 22. -/
theorem claim_C4_witness :
    matchesCaratLabel (lowerL "22 Karat".data) = true ∧
    cellEffect 1000 ["Gold".data, "22 Karat".data] "22 Karat".data = none :=
  ⟨by decide, claim_C4.1 1000 ["Gold".data, "22 Karat".data] "22 Karat".data (by decide)⟩

/-- C5: every entry accepted anywhere into the gold bucket has value
strictly greater than 1000, and every entry accepted anywhere into the
silver bucket has value strictly greater than 100; values at or below the
metal's threshold never produce an entry for that metal. -/
theorem claim_C5 (rows : List (List (List Char))) (e : Entry) :
    (e ∈ allEntriesOf (processRows rows).gold → 1000 < e.value) ∧
    (e ∈ allEntriesOf (processRows rows).silver → 100 < e.value) := by
  have hinv := processRows_inv rows emptyPrices (by simp [emptyPrices, emptyBucket, allEntriesOf])
    (by simp [emptyPrices, emptyBucket, allEntriesOf])
  exact ⟨fun he => (hinv.1 e he).1, fun he => (hinv.2 e he).1⟩

/-- C5 witness: the run on the single row `["Gold", "৳ 1,23,456.50"]`
accepts the entry of value 123456.5 into the gold bucket, and the theorem
yields 1000 < 123456.5. -/
theorem claim_C5_witness :
    (⟨mkRat 12345650 100, "৳ 1,23,456.50".data, ["Gold".data, "৳ 1,23,456.50".data]⟩ : Entry) ∈
      allEntriesOf (processRows [["Gold".data, "৳ 1,23,456.50".data]]).gold ∧
    (1000 : ℚ) <
      (⟨mkRat 12345650 100, "৳ 1,23,456.50".data, ["Gold".data, "৳ 1,23,456.50".data]⟩ :
        Entry).value :=
  ⟨by decide,
    (claim_C5 [["Gold".data, "৳ 1,23,456.50".data]]
      ⟨mkRat 12345650 100, "৳ 1,23,456.50".data, ["Gold".data, "৳ 1,23,456.50".data]⟩).1
      (by decide)⟩

/-- C6: for each of the four purity categories the daily-average record
stores the truncated integer mean of that category's entry values, and
stores an explicit 0 when the category has no entries; the date field is
the run's date. -/
theorem claim_C6 (b : MetalBucket) (today : List Char) :
    (getAverages b today).date = today ∧
    (b.c22 = [] → (getAverages b today).k22 = 0) ∧
    (b.c22 ≠ [] →
      (getAverages b today).k22 = pyInt ((b.c22.map Entry.value).sum / (b.c22.length : ℚ))) ∧
    (b.c21 = [] → (getAverages b today).k21 = 0) ∧
    (b.c21 ≠ [] →
      (getAverages b today).k21 = pyInt ((b.c21.map Entry.value).sum / (b.c21.length : ℚ))) ∧
    (b.c18 = [] → (getAverages b today).k18 = 0) ∧
    (b.c18 ≠ [] →
      (getAverages b today).k18 = pyInt ((b.c18.map Entry.value).sum / (b.c18.length : ℚ))) ∧
    (b.traditional = [] → (getAverages b today).traditional = 0) ∧
    (b.traditional ≠ [] →
      (getAverages b today).traditional =
        pyInt ((b.traditional.map Entry.value).sum / (b.traditional.length : ℚ))) := by
  refine ⟨rfl, ?_, ?_, ?_, ?_, ?_, ?_, ?_, ?_⟩ <;>
    intro h <;> simp [getAverages, avgOf, h]

/-- C6 witness: a bucket with two 22-carat entries (values 100 and 101)
and no 21-carat entries: the k22 field is the truncated mean
`int(201 / 2) = 100` and the k21 field is 0. -/
theorem claim_C6_witness :
    (getAverages
        ⟨[⟨100, [], []⟩, ⟨101, [], []⟩], [], [], [], []⟩ "2024-01-01".data).k22 =
      pyInt ((([⟨100, [], []⟩, ⟨101, [], []⟩] : List Entry).map Entry.value).sum / 2) ∧
    (getAverages
        ⟨[⟨100, [], []⟩, ⟨101, [], []⟩], [], [], [], []⟩ "2024-01-01".data).k21 = 0 :=
  ⟨(claim_C6 ⟨[⟨100, [], []⟩, ⟨101, [], []⟩], [], [], [], []⟩ "2024-01-01".data).2.2.1
      (by decide),
    (claim_C6 ⟨[⟨100, [], []⟩, ⟨101, [], []⟩], [], [], [], []⟩ "2024-01-01".data).2.2.2.1
      (by decide)⟩

/-- C8 (amended): the extracted value is unchanged by removing the
currency markers, provided one removal pass of `৳`, `TK`, `BDT` leaves no
residual marker occurrence (equivalently, the removal is idempotent on the
fragment) — which holds whenever the markers in the fragment do not
overlap each other. -/
theorem claim_C8 (t : List Char) (h : stripMarkers (stripMarkers t) = stripMarkers t) :
    extract t = extract (stripMarkers t) := by
  rw [extract, extract, h]

/-- C8 counterexample: in `12TTKK34` the single `replace('TK','')` pass
deletes only the inner `TK`, leaving `12TK34`, so the recognizer reads
`12`; on the marker-free fragment it reads `1234`. -/
theorem claim_C8_counterexample :
    extract "12TTKK34".data ≠ extract (stripMarkers "12TTKK34".data) ∧
    stripMarkers "12TTKK34".data = "12TK34".data ∧
    extract "12TTKK34".data = some 12 ∧
    extract "12TK34".data = some 1234 ∧
    extract "1234".data = some 1234 := by
  refine ⟨?_, by decide, by decide, by decide, by decide⟩
  decide

/-- C8 witness: on an ordinary price fragment the marker removal is
idempotent and the amended equation applies. -/
theorem claim_C8_witness :
    stripMarkers (stripMarkers "৳ 1,234 TK".data) = stripMarkers "৳ 1,234 TK".data ∧
    extract "৳ 1,234 TK".data = extract (stripMarkers "৳ 1,234 TK".data) :=
  ⟨by decide, claim_C8 _ (by decide)⟩

/-- C9 witness: instantiating the named-category clause at `c21` with an
empty bucket: the entry arrives in `all` exactly once. -/
theorem claim_C9_witness :
    (addEntry emptyBucket Category.c21 ⟨1, [], []⟩).all =
      emptyBucket.all ++ [⟨1, [], []⟩] :=
  (claim_C9 emptyBucket Category.c21 ⟨1, [], []⟩).2.1 (by decide)

end PriceScraper
